import Mathlib

/-!
Verification of the streamdeck device-protocol layer (`src/lib.rs`) against
its natural-language specification. The capability table (the `info` module)
and the image helpers (the `images` module) are external to the checked
sources, so they are modelled from the specification as an abstract record;
every algorithm below is a direct shallow embedding of the code in
`src/lib.rs`. Bytes are modelled as `Nat`, byte buffers as `List Nat`,
fallible Rust functions as `Except Error`, and a reachable `unimplemented!`
as the `none` value of an `Option`.
-/

namespace StreamDeck

/-- Key layout direction of a device (spec section 3). -/
inductive KeyDirection
  | LeftToRight
  | RightToLeft
deriving DecidableEq, Repr

/-- Wire pixel encoding of a device (spec section 3). -/
inductive ImageMode
  | Bmp
  | Jpeg
deriving DecidableEq, Repr

/-- Error enumeration from `src/lib.rs` (`enum Error`). The three wrapper
variants carry external payloads that the embedded algorithms never inspect,
so they are modelled as bare constructors. -/
inductive Error
  | Hid
  | Io
  | Image
  | InvalidImageSize
  | InvalidKeyIndex
  | UnrecognisedPID
  | NoData
deriving DecidableEq, Repr

/-- The closed set of device variants (`enum Kind`, re-exported from the
`info` module). -/
inductive Kind
  | Original
  | OriginalV2
  | Mini
  | Xl
  | Mk2
  | Plus
deriving DecidableEq, Repr

/-- Modelled from the spec: the per-`Kind` capability record returned by the
`info` module, which is not part of the checked sources. Field names follow
the accessor names used by `src/lib.rs` (`keys()`, `key_columns()`,
`key_direction()`, `key_data_offset()`, `image_report_len()`,
`image_report_header_len()`, `image_base()`, `is_v2()`, `image_mode()`,
`image_size()`). The spec fixes no numeric values, only the framing
invariant `image_report_header_len + image_base.len() <= image_report_len`,
so theorems quantify over records satisfying the invariants they need. -/
structure Capability where
  keys : Nat
  columns : Nat
  image_w : Nat
  image_h : Nat
  image_mode : ImageMode
  key_direction : KeyDirection
  key_data_offset : Nat
  image_report_len : Nat
  image_report_header_len : Nat
  image_base : List Nat
  is_v2 : Bool
deriving DecidableEq, Repr

/-- Modelled from the spec: `image_size_bytes = w*h*3` (spec section 3). -/
def image_size_bytes (k : Capability) : Nat :=
  k.image_w * k.image_h * 3

/-- The sub-buffer `l[s..e]` of a byte buffer, as used by Rust slicing. -/
def slice (l : List Nat) (s e : Nat) : List Nat :=
  (l.drop s).take (e - s)

/-- `buf[s..s + src.len()].copy_from_slice(src)`: overwrite a region of a
byte buffer, leaving everything else alone. -/
def overwrite (buf : List Nat) (s : Nat) (src : List Nat) : List Nat :=
  buf.take s ++ src ++ buf.drop (s + src.length)

/-- Low byte of a little-endian 16-bit encoding (`to_le_bytes`). -/
def le16lo (n : Nat) : Nat := n % 256

/-- High byte of a little-endian 16-bit encoding (`to_le_bytes`). -/
def le16hi (n : Nat) : Nat := n / 256 % 256

/-- `StreamDeck::translate_key_index` from `src/lib.rs`: transforms a key
from zero-indexed left-to-right into the device coordinate system. The
guard in the code is `key > self.kind.keys()`. -/
def translate_key_index (k : Capability) (key : Nat) : Except Error Nat :=
  if key > k.keys then Except.error Error.InvalidKeyIndex
  else
    match k.key_direction with
    | KeyDirection.LeftToRight => Except.ok key
    | KeyDirection.RightToLeft =>
      Except.ok (key / k.columns * k.columns + k.columns - key % k.columns)

/-- `StreamDeck::write_image_header` from `src/lib.rs`. -/
def write_image_header (isV2 : Bool) (buf : List Nat) (key seq : Nat)
    (isLast : Bool) (payload_len : Nat) : List Nat :=
  if isV2 then
    overwrite buf 0 [0x02, 0x07, key % 256, if isLast then 1 else 0,
      le16lo payload_len, le16hi payload_len, le16lo seq, le16hi seq]
  else
    overwrite buf 0 [0x02, 0x01, le16lo seq, le16hi seq,
      if isLast then 1 else 0, key % 256]

/-- Number of leading bytes `write_image_header` assigns (8 in the v2
layout, 6 in the legacy layout). -/
def header_written_len (isV2 : Bool) : Nat :=
  if isV2 then 8 else 6

/-- One HID output report emitted by `write_button_image`, together with the
loop bookkeeping that produced it: the sequence counter, the image offset,
the `is_last` flag, the image bytes copied into the report, and the whole
report buffer as written to the device. -/
structure Chunk where
  seq : Nat
  off : Nat
  isLast : Bool
  payload : List Nat
  buf : List Nat
deriving DecidableEq, Repr

/-- The payload size of one iteration of the generic chunking loop:
`take = min(remaining, maxdatalen)`, recomputed as
`min(remaining, maxdatalen - base.len())` on the first chunk when the base
is non-empty (`src/lib.rs`, lines 507-515). `maxdatalen` is
`buf.len() - hdrlen`. -/
def stepTake (hdrlen : Nat) (base image buf : List Nat) (seq offset : Nat) : Nat :=
  if seq == 0 && !base.isEmpty
    then min (image.length - offset) (buf.length - hdrlen - base.length)
    else min (image.length - offset) (buf.length - hdrlen)

/-- One iteration of the generic chunking loop of
`StreamDeck::write_button_image` (`src/lib.rs`, the body of the `while`
loop in the non-`Original` arm): write the base (first chunk only), the
header, and the payload into the report buffer and record the chunk. -/
def chunkStep (isV2 : Bool) (hdrlen : Nat) (base image : List Nat) (key : Nat)
    (buf : List Nat) (seq offset : Nat) : Chunk :=
  let buf1 := if seq == 0 && !base.isEmpty then overwrite buf hdrlen base else buf
  let take := stepTake hdrlen base image buf seq offset
  let start := if seq == 0 && !base.isEmpty then hdrlen + base.length else hdrlen
  let isLast := take == image.length - offset
  let payload := slice image offset (offset + take)
  let buf2 := write_image_header isV2 buf1 key seq isLast take
  { seq := seq, off := offset, isLast := isLast, payload := payload,
    buf := overwrite buf2 start payload }

/-- The generic chunking loop of `StreamDeck::write_button_image`
(`src/lib.rs`, the non-`Original` arm). The mutable report buffer is
threaded through the iterations exactly as in the code (it is not
re-zeroed). `fuel` bounds the number of iterations; `none` models a loop
that still has bytes left when the fuel runs out, which on strictly
positive per-chunk capacity never happens for `fuel > image.length`. -/
def writeLoop (isV2 : Bool) (hdrlen : Nat) (base image : List Nat) (key : Nat) :
    Nat → List Nat → Nat → Nat → Option (List Chunk)
  | 0, _, _, _ => none
  | fuel + 1, buf, seq, offset =>
    if offset < image.length then
      match writeLoop isV2 hdrlen base image key fuel
          (chunkStep isV2 hdrlen base image key buf seq offset).buf (seq + 1)
          (offset + (chunkStep isV2 hdrlen base image key buf seq offset).payload.length) with
      | none => none
      | some cs => some (chunkStep isV2 hdrlen base image key buf seq offset :: cs)
    else
      some []

/-- `StreamDeck::write_button_image` from `src/lib.rs`: translate the key,
then either the legacy fixed two-packet transfer (`Kind::Original`) or the
generic chunking loop. The returned value is the list of reports written to
the device (`none` inside if the generic loop would not have terminated
within `fuel` iterations). -/
def write_button_image (caps : Kind → Capability) (kind : Kind) (fuel : Nat)
    (key : Nat) (image : List Nat) : Except Error (Option (List Chunk)) :=
  match translate_key_index (caps kind) key with
  | Except.error e => Except.error e
  | Except.ok key =>
    let k := caps kind
    let buf := List.replicate k.image_report_len 0
    let hdrlen := k.image_report_header_len
    let base := k.image_base
    match kind with
    | Kind.Original =>
      let buf1 := write_image_header k.is_v2 buf key 1 false 0
      let buf2 := overwrite buf1 hdrlen base
      let start := hdrlen + base.length
      let p1 := slice image 0 7749
      let buf3 := overwrite buf2 start p1
      let buf4 := write_image_header k.is_v2 buf3 key 2 true 0
      let p2 := slice image 7749 15552
      let buf5 := overwrite buf4 hdrlen p2
      Except.ok (some
        [ { seq := 1, off := 0, isLast := false, payload := p1, buf := buf3 },
          { seq := 2, off := 7749, isLast := true, payload := p2, buf := buf5 } ])
    | _ =>
      Except.ok (writeLoop k.is_v2 hdrlen base image key fuel buf 0 0)

/-- `StreamDeck::set_brightness` from `src/lib.rs`: the 17-byte feature
report sent to the device. -/
def set_brightness (k : Capability) (brightness : Nat) : List Nat :=
  let cmd := List.replicate 17 0
  let b := min brightness 100
  if k.is_v2 then overwrite cmd 0 [0x03, 0x08, b]
  else overwrite cmd 0 [0x05, 0x55, 0xaa, 0xd1, 0x01, b]

/-- `StreamDeck::convert_image` from `src/lib.rs`. The external JPEG
encoder (`images::encode_jpeg`, out of scope per spec section 1) is passed
in as an abstract function; its failures surface as the wrapped
`Error.Image` variant (spec section 4.2: propagated Image encode errors). -/
def convert_image (k : Capability)
    (jpeg : List Nat → Nat → Nat → Except Unit (List Nat))
    (image : List Nat) : Except Error (List Nat) :=
  if image.length ≠ image_size_bytes k then Except.error Error.InvalidImageSize
  else
    match k.image_mode with
    | ImageMode.Bmp => Except.ok image
    | ImageMode.Jpeg =>
      match jpeg image k.image_w k.image_h with
      | Except.ok out => Except.ok out
      | Except.error _ => Except.error Error.Image

/-- Typed input events (`enum Input` in `src/lib.rs`). -/
inductive TouchInput
  | Short (x y : Nat)
  | Long (x y : Nat)
  | Swipe (x0 y0 x1 y1 : Nat)
deriving DecidableEq, Repr

/-- Knob events (`enum KnobInput` in `src/lib.rs`); rotation deltas are
signed bytes. -/
inductive KnobInput
  | Press (raw : List Nat)
  | Rotate (deltas : List Int)
deriving DecidableEq, Repr

/-- Top-level input events (`enum Input` in `src/lib.rs`). -/
inductive Input
  | None
  | Button (states : List Nat)
  | Touch (t : TouchInput)
  | Knob (k : KnobInput)
  | Other
deriving DecidableEq, Repr

/-- Reinterpret a byte as an `i8` (`cmd[i] as i8`). -/
def asI8 (b : Nat) : Int :=
  if b % 256 < 128 then (b % 256 : Int) else (b % 256 : Int) - 256

/-- `u16::from_le_bytes([lo, hi])`. -/
def fromLe16 (lo hi : Nat) : Nat := lo % 256 + 256 * (hi % 256)

/-- `StreamDeck::read_input` from `src/lib.rs`, applied to the raw report
buffer `cmd` (the 36-byte zero-initialised array after the HID read, so
positions past the end of the list read as 0). The result is `none`
exactly when the code reaches one of its `unimplemented!()` branches;
otherwise it is `some` of the `Result` the code returns. -/
def read_input (k : Capability) (cmd : List Nat) : Option (Except Error Input) :=
  if cmd.getD 0 0 = 0 then some (Except.error Error.NoData)
  else if cmd.getD 1 0 = 0x00 ∧ cmd.getD 2 0 = 0x08 then
    match k.key_direction with
    | KeyDirection.RightToLeft =>
      some (Except.map Input.Button ((List.range k.keys).mapM fun i =>
        Except.map (fun t => cmd.getD (k.key_data_offset + t) 0)
          (translate_key_index k i)))
    | KeyDirection.LeftToRight =>
      some (Except.ok (Input.Button
        (slice cmd (1 + k.key_data_offset) (1 + k.key_data_offset + k.keys))))
  else if cmd.getD 1 0 = 0x02 ∧ cmd.getD 2 0 = 0x0e then
    if cmd.getD 4 0 = 0x01 ∧ cmd.getD 5 0 = 0x01 then
      some (Except.ok (Input.Touch
        (TouchInput.Short (fromLe16 (cmd.getD 6 0) (cmd.getD 7 0)) (cmd.getD 8 0))))
    else if cmd.getD 4 0 = 0x02 ∧ cmd.getD 5 0 = 0x01 then
      some (Except.ok (Input.Touch
        (TouchInput.Long (fromLe16 (cmd.getD 6 0) (cmd.getD 7 0)) (cmd.getD 8 0))))
    else if cmd.getD 4 0 = 0x03 ∧ cmd.getD 5 0 = 0x00 then
      some (Except.ok (Input.Touch
        (TouchInput.Swipe (fromLe16 (cmd.getD 6 0) (cmd.getD 7 0)) (cmd.getD 8 0)
          (fromLe16 (cmd.getD 10 0) (cmd.getD 11 0)) (cmd.getD 8 0))))
    else none
  else if cmd.getD 1 0 = 0x03 ∧ cmd.getD 2 0 = 0x05 then
    if cmd.getD 4 0 = 0 then
      some (Except.ok (Input.Knob (KnobInput.Press (slice cmd 5 9))))
    else if cmd.getD 4 0 = 1 then
      some (Except.ok (Input.Knob (KnobInput.Rotate
        [asI8 (cmd.getD 5 0), asI8 (cmd.getD 6 0),
         asI8 (cmd.getD 7 0), asI8 (cmd.getD 8 0)])))
    else none
  else some (Except.ok Input.Other)

/-- `StreamDeck::read_buttons` from `src/lib.rs`, applied to the raw report
buffer. The button-state decoding is duplicated in the source between
`read_input` and `read_buttons`; this definition embeds the copy inside
`read_buttons`. -/
def read_buttons (k : Capability) (cmd : List Nat) : Except Error (List Nat) :=
  if cmd.getD 0 0 = 0 then Except.error Error.NoData
  else
    match k.key_direction with
    | KeyDirection.RightToLeft =>
      (List.range k.keys).mapM fun i =>
        Except.map (fun t => cmd.getD (k.key_data_offset + t) 0)
          (translate_key_index k i)
    | KeyDirection.LeftToRight =>
      Except.ok (slice cmd (1 + k.key_data_offset) (1 + k.key_data_offset + k.keys))

/-! ## Buffer lemmas -/

lemma length_overwrite (b src : List Nat) (s : Nat) (h : s + src.length ≤ b.length) :
    (overwrite b s src).length = b.length := by
  simp only [overwrite, List.length_append, List.length_take, List.length_drop]
  omega

lemma getElem?_overwrite (b src : List Nat) (s i : Nat) (hs : s + src.length ≤ b.length) :
    (overwrite b s src)[i]? =
      if i < s then b[i]? else if i < s + src.length then src[i - s]? else b[i]? := by
  have hl : (b.take s).length = s := by
    simp only [List.length_take]
    omega
  simp only [overwrite, List.append_assoc]
  rw [List.getElem?_append, hl]
  by_cases h1 : i < s
  · rw [if_pos h1, if_pos h1, List.getElem?_take, if_pos h1]
  · rw [if_neg h1, if_neg h1]
    rw [List.getElem?_append]
    by_cases h2 : i < s + src.length
    · rw [if_pos (by omega : i - s < src.length), if_pos h2]
    · rw [if_neg (by omega : ¬ i - s < src.length), if_neg h2,
        List.getElem?_drop]
      congr 1
      omega

lemma getD_overwrite_before (b src : List Nat) (s i : Nat) (hi : i < s)
    (hs : s + src.length ≤ b.length) :
    (overwrite b s src).getD i 0 = b.getD i 0 := by
  simp only [List.getD_eq_getElem?_getD, getElem?_overwrite b src s i hs, if_pos hi]

lemma getD_overwrite_at (b src : List Nat) (s i : Nat) (h1 : s ≤ i)
    (h2 : i < s + src.length) (hs : s + src.length ≤ b.length) :
    (overwrite b s src).getD i 0 = src.getD (i - s) 0 := by
  simp only [List.getD_eq_getElem?_getD, getElem?_overwrite b src s i hs,
    if_neg (by omega : ¬ i < s), if_pos h2]

lemma getD_overwrite_after (b src : List Nat) (s i : Nat) (h : s + src.length ≤ i)
    (hs : s + src.length ≤ b.length) :
    (overwrite b s src).getD i 0 = b.getD i 0 := by
  simp only [List.getD_eq_getElem?_getD, getElem?_overwrite b src s i hs,
    if_neg (by omega : ¬ i < s), if_neg (by omega : ¬ i < s + src.length)]

lemma getElem?_slice (l : List Nat) (s e n : Nat) :
    (slice l s e)[n]? = if n < e - s then l[s + n]? else none := by
  simp only [slice, List.getElem?_take, List.getElem?_drop]

lemma length_slice (l : List Nat) (s e : Nat) :
    (slice l s e).length = min (e - s) (l.length - s) := by
  simp only [slice, List.length_take, List.length_drop]

lemma slice_overwrite_self (b src : List Nat) (s : Nat) (hs : s + src.length ≤ b.length) :
    slice (overwrite b s src) s (s + src.length) = src := by
  apply List.ext_getElem?
  intro n
  rw [getElem?_slice]
  by_cases h : n < s + src.length - s
  · rw [if_pos h, getElem?_overwrite b src s (s + n) hs,
      if_neg (by omega : ¬ s + n < s), if_pos (by omega : s + n < s + src.length)]
    congr 1
    omega
  · rw [if_neg h]
    exact (List.getElem?_eq_none (by omega)).symm

lemma slice_overwrite_untouched (b src : List Nat) (s a e : Nat)
    (h : e ≤ s ∨ s + src.length ≤ a) (hs : s + src.length ≤ b.length) :
    slice (overwrite b s src) a e = slice b a e := by
  apply List.ext_getElem?
  intro n
  rw [getElem?_slice, getElem?_slice]
  by_cases hn : n < e - a
  · rw [if_pos hn, if_pos hn, getElem?_overwrite b src s (a + n) hs]
    rcases h with h | h
    · rw [if_pos (by omega : a + n < s)]
    · rw [if_neg (by omega : ¬ a + n < s), if_neg (by omega : ¬ a + n < s + src.length)]
  · rw [if_neg hn, if_neg hn]

lemma getD_replicate_zero (n i : Nat) :
    (List.replicate n (0 : Nat)).getD i 0 = 0 := by
  simp only [List.getD_eq_getElem?_getD, List.getElem?_replicate]
  by_cases h : i < n
  · rw [if_pos h]
    rfl
  · rw [if_neg h]
    rfl

/-! ## Sample capability records, used to instantiate theorems -/

/-- A sample LeftToRight v2 capability record (spec section 3 shape) used to
instantiate theorems at concrete inputs. -/
def demoV2 : Capability :=
  { keys := 15, columns := 5, image_w := 2, image_h := 2,
    image_mode := ImageMode.Bmp, key_direction := KeyDirection.LeftToRight,
    key_data_offset := 3, image_report_len := 12,
    image_report_header_len := 8, image_base := [], is_v2 := true }

/-- A sample RightToLeft legacy capability record (the legacy 15-key,
5-column layout described in spec section 4.4). -/
def demoLegacy : Capability :=
  { keys := 15, columns := 5, image_w := 72, image_h := 72,
    image_mode := ImageMode.Bmp, key_direction := KeyDirection.RightToLeft,
    key_data_offset := 0, image_report_len := 8000,
    image_report_header_len := 16, image_base := [66, 77], is_v2 := false }

/-! ## C1: key-range check -/

/-- C1: the claim says `translate_key_index` (and hence
`write_button_image`) fails with `InvalidKeyIndex` exactly when
`logical_key >= kind.keys()`. The code's guard is `key > self.kind.keys()`,
so the boundary value `logical_key = kind.keys()` (here 15 with 15 keys) is
accepted: translation returns `Ok(15)` and `write_button_image` proceeds,
contradicting the claim and the spec's stated intent. -/
theorem claim_C1_code_bug_eval :
    translate_key_index demoV2 15 = Except.ok 15 ∧
    write_button_image (fun _ => demoV2) Kind.Xl 1 15 [] = Except.ok (some []) ∧
    ¬ (15 < demoV2.keys) :=
  ⟨rfl, rfl, by decide⟩

/-! ## C7: brightness clamping and encoding -/

/-- C7: `set_brightness` clamps the brightness to 100 and sends a 17-byte
feature report: `[0x03,0x08,clamped]` followed by zeros on v2 devices and
`[0x05,0x55,0xaa,0xd1,0x01,clamped]` followed by zeros on legacy devices;
in particular brightness 150 sends exactly the bytes of brightness 100. -/
theorem claim_C7_brightness (k : Capability) (b : Nat) :
    set_brightness k b =
      (if k.is_v2 then [0x03, 0x08, min b 100] ++ List.replicate 14 0
       else [0x05, 0x55, 0xaa, 0xd1, 0x01, min b 100] ++ List.replicate 11 0) ∧
    set_brightness k 150 = set_brightness k 100 := by
  constructor
  · by_cases h : k.is_v2 <;>
      simp [set_brightness, overwrite, h, List.drop_replicate]
  · by_cases h : k.is_v2 <;> simp [set_brightness, h]

/-! ## C8: image conversion size check and Bmp pass-through -/

/-- C8: `convert_image` fails with `InvalidImageSize` exactly when the
input length differs from `kind.image_size_bytes()`; on a matching length
with `Bmp` image mode the device image equals the input verbatim, and with
`Jpeg` mode the external encoder's output is used verbatim. -/
theorem claim_C8_convert (k : Capability)
    (jpeg : List Nat → Nat → Nat → Except Unit (List Nat)) (image : List Nat) :
    (convert_image k jpeg image = Except.error Error.InvalidImageSize ↔
      image.length ≠ image_size_bytes k) ∧
    (image.length = image_size_bytes k → k.image_mode = ImageMode.Bmp →
      convert_image k jpeg image = Except.ok image) ∧
    (∀ out, image.length = image_size_bytes k → k.image_mode = ImageMode.Jpeg →
      jpeg image k.image_w k.image_h = Except.ok out →
      convert_image k jpeg image = Except.ok out) := by
  refine ⟨?_, ?_, ?_⟩
  · by_cases h : image.length = image_size_bytes k
    · simp only [convert_image, if_neg (show ¬ image.length ≠ image_size_bytes k by simp [h])]
      cases hm : k.image_mode
      · simp [h]
      · cases hj : jpeg image k.image_w k.image_h <;> simp [h]
    · simp [convert_image, h]
  · intro h hm
    simp [convert_image, h, hm]
  · intro out h hm hj
    simp [convert_image, h, hm, hj]

/-- C8 witness: a 12-byte buffer on a 2x2 Bmp device converts to itself. -/
theorem claim_C8_witness :
    (List.replicate 12 1).length = image_size_bytes demoV2 ∧
    demoV2.image_mode = ImageMode.Bmp ∧
    convert_image demoV2 (fun _ _ _ => Except.ok []) (List.replicate 12 1) =
      Except.ok (List.replicate 12 1) :=
  ⟨by decide, rfl,
    (claim_C8_convert demoV2 (fun _ _ _ => Except.ok []) (List.replicate 12 1)).2.1
      (by decide) rfl⟩

/-! ## C4: key-translation bijection -/

/-- The total translation map: the value `translate_key_index` returns on
in-range keys (0 on the error branch, which in-range keys never reach). -/
def translateFun (k : Capability) (key : Nat) : Nat :=
  match translate_key_index k key with
  | Except.ok v => v
  | Except.error _ => 0

lemma translateFun_spec (k : Capability) (i : Nat) (hi : i < k.keys) :
    translate_key_index k i = Except.ok (translateFun k i) := by
  unfold translateFun translate_key_index
  rw [if_neg (by omega : ¬ i > k.keys)]
  cases k.key_direction <;> rfl

lemma translateFun_ltr (k : Capability) (hdir : k.key_direction = KeyDirection.LeftToRight)
    (i : Nat) (hi : i < k.keys) : translateFun k i = i := by
  unfold translateFun translate_key_index
  rw [if_neg (by omega : ¬ i > k.keys), hdir]

lemma translateFun_rtl (k : Capability) (hdir : k.key_direction = KeyDirection.RightToLeft)
    (i : Nat) (hi : i < k.keys) :
    translateFun k i = i / k.columns * k.columns + k.columns - i % k.columns := by
  unfold translateFun translate_key_index
  rw [if_neg (by omega : ¬ i > k.keys), hdir]

lemma div_mul_add_div (q d c : Nat) (hc : 0 < c) (hd : d < c) : (q * c + d) / c = q := by
  rw [Nat.add_comm, Nat.add_mul_div_right d q hc, Nat.div_eq_of_lt hd]
  omega

lemma div_mul_add_mod (q d c : Nat) (_hc : 0 < c) (hd : d < c) : (q * c + d) % c = d := by
  rw [Nat.add_comm, Nat.add_mul_mod_self_right, Nat.mod_eq_of_lt hd]

/-- The legacy right-to-left map, written on the whole of `Nat`:
`row*columns + columns - col`. -/
def rtlMap (c i : Nat) : Nat := i / c * c + c - i % c

lemma rtlMap_left_inverse (c i : Nat) (hc : 0 < c) :
    (rtlMap c i - 1) / c * c + (c - 1 - (rtlMap c i - 1) % c) = i := by
  have hr : i % c < c := Nat.mod_lt _ hc
  have hqr : i / c * c + i % c = i := by
    have h1 := Nat.div_add_mod i c
    have h2 : c * (i / c) = i / c * c := Nat.mul_comm c (i / c)
    omega
  have hf : rtlMap c i = i / c * c + (c - i % c) := by
    unfold rtlMap
    omega
  have hsub : rtlMap c i - 1 = i / c * c + (c - i % c - 1) := by omega
  rw [hsub, div_mul_add_div _ _ _ hc (by omega), div_mul_add_mod _ _ _ hc (by omega)]
  omega

lemma rtlMap_bounds (c m i : Nat) (hc : 0 < c) (hi : i < c * m) :
    1 ≤ rtlMap c i ∧ rtlMap c i ≤ c * m := by
  have hr : i % c < c := Nat.mod_lt _ hc
  have hqr : i / c * c + i % c = i := by
    have h1 := Nat.div_add_mod i c
    have h2 : c * (i / c) = i / c * c := Nat.mul_comm c (i / c)
    omega
  have hq : i / c < m := by
    by_contra hq
    push_neg at hq
    have : m * c ≤ i / c * c := Nat.mul_le_mul_right c hq
    have hcm : c * m = m * c := Nat.mul_comm c m
    omega
  have hq1 : (i / c + 1) * c ≤ m * c := Nat.mul_le_mul_right c hq
  have hsucc : (i / c + 1) * c = i / c * c + c := Nat.succ_mul (i / c) c
  have hcm : c * m = m * c := Nat.mul_comm c m
  unfold rtlMap
  omega

lemma rtlMap_surj (c m n : Nat) (hc : 0 < c) (h1 : 1 ≤ n) (h2 : n ≤ c * m) :
    ∃ i, i < c * m ∧ rtlMap c i = n := by
  refine ⟨(n - 1) / c * c + (c - 1 - (n - 1) % c), ?_, ?_⟩
  · have hr : (n - 1) % c < c := Nat.mod_lt _ hc
    have hqr : (n - 1) / c * c + (n - 1) % c = n - 1 := by
      have h1 := Nat.div_add_mod (n - 1) c
      have h2 : c * ((n - 1) / c) = (n - 1) / c * c := Nat.mul_comm c ((n - 1) / c)
      omega
    have hq : (n - 1) / c < m := by
      by_contra hq
      push_neg at hq
      have : m * c ≤ (n - 1) / c * c := Nat.mul_le_mul_right c hq
      have hcm : c * m = m * c := Nat.mul_comm c m
      omega
    have hq1 : ((n - 1) / c + 1) * c ≤ m * c := Nat.mul_le_mul_right c hq
    have hsucc : ((n - 1) / c + 1) * c = (n - 1) / c * c + c := Nat.succ_mul _ c
    have hcm : c * m = m * c := Nat.mul_comm c m
    omega
  · have hr : (n - 1) % c < c := Nat.mod_lt _ hc
    have hqr : (n - 1) / c * c + (n - 1) % c = n - 1 := by
      have h1 := Nat.div_add_mod (n - 1) c
      have h2 : c * ((n - 1) / c) = (n - 1) / c * c := Nat.mul_comm c ((n - 1) / c)
      omega
    unfold rtlMap
    rw [div_mul_add_div _ _ _ hc (by omega), div_mul_add_mod _ _ _ hc (by omega)]
    omega

lemma rtlMap_injOn (c m : Nat) (hc : 0 < c) :
    ∀ a, a < c * m → ∀ b, b < c * m → rtlMap c a = rtlMap c b → a = b := by
  intro a _ b _ hab
  have ha := rtlMap_left_inverse c a hc
  have hb := rtlMap_left_inverse c b hc
  rw [hab] at ha
  omega

/-- C4 counterexample: the claim asserts that key translation is a
bijection from `[0, keys)` onto `[0, keys)` for every device. On the legacy
right-to-left 15-key, 5-column layout, logical key 10 translates to native
index 15, which lies outside `[0, 15)`, so the map is not onto `[0, keys)`
(its image is `[1, keys]`). -/
theorem claim_C4_counterexample :
    translate_key_index demoLegacy 10 = Except.ok 15 ∧
    ¬ Set.BijOn (translateFun demoLegacy) (Set.Ico 0 demoLegacy.keys)
        (Set.Ico 0 demoLegacy.keys) := by
  refine ⟨rfl, fun h => ?_⟩
  have h10 : (10 : Nat) ∈ Set.Ico 0 demoLegacy.keys := by
    constructor
    · exact Nat.zero_le _
    · decide
  have hm := h.mapsTo h10
  rw [show translateFun demoLegacy 10 = 15 from rfl] at hm
  exact absurd hm.2 (by decide)

/-- C4 amended: restricted to `[0, kind.keys())` (with `columns` positive
and dividing `keys`), key translation is the identity bijection from
`[0, keys)` onto `[0, keys)` for LeftToRight devices, and for RightToLeft
devices it is `row*columns + columns - col`, a bijection from `[0, keys)`
onto `[1, keys]` (1-relative, as the spec itself notes), not onto
`[0, keys)`. -/
theorem claim_C4_amended (k : Capability) (hc : 0 < k.columns)
    (hd : k.columns ∣ k.keys) :
    (∀ i, i < k.keys → translate_key_index k i = Except.ok (translateFun k i)) ∧
    (k.key_direction = KeyDirection.LeftToRight →
      (∀ i, i < k.keys → translateFun k i = i) ∧
      Set.BijOn (translateFun k) (Set.Ico 0 k.keys) (Set.Ico 0 k.keys)) ∧
    (k.key_direction = KeyDirection.RightToLeft →
      (∀ i, i < k.keys →
        translateFun k i = i / k.columns * k.columns + k.columns - i % k.columns) ∧
      Set.BijOn (translateFun k) (Set.Ico 0 k.keys) (Set.Icc 1 k.keys)) := by
  obtain ⟨m, hm⟩ := hd
  refine ⟨fun i hi => translateFun_spec k i hi, fun hdir => ⟨fun i hi => translateFun_ltr k hdir i hi, ?_, ?_, ?_⟩,
    fun hdir => ⟨fun i hi => translateFun_rtl k hdir i hi, ?_, ?_, ?_⟩⟩
  · intro i hi
    rw [translateFun_ltr k hdir i hi.2]
    exact hi
  · intro a ha b hb hab
    rwa [translateFun_ltr k hdir a ha.2, translateFun_ltr k hdir b hb.2] at hab
  · intro n hn
    exact ⟨n, hn, translateFun_ltr k hdir n hn.2⟩
  · intro i hi
    have hi2 : i < k.keys := hi.2
    rw [translateFun_rtl k hdir i hi2]
    have hb := rtlMap_bounds k.columns m i hc (by omega)
    unfold rtlMap at hb
    exact ⟨by omega, by omega⟩
  · intro a ha b hb hab
    have ha2 : a < k.keys := ha.2
    have hb2 : b < k.keys := hb.2
    rw [translateFun_rtl k hdir a ha2, translateFun_rtl k hdir b hb2] at hab
    exact rtlMap_injOn k.columns m hc a (by omega) b (by omega) hab
  · intro n hn
    have hn1 : 1 ≤ n := hn.1
    have hn2 : n ≤ k.keys := hn.2
    obtain ⟨i, hilt, hieq⟩ := rtlMap_surj k.columns m n hc hn1 (by omega)
    refine ⟨i, ⟨Nat.zero_le _, by omega⟩, ?_⟩
    rw [translateFun_rtl k hdir i (by omega)]
    unfold rtlMap at hieq
    exact hieq

/-- C4 witness: the amended theorem instantiated on the legacy 15-key
layout at logical key 7 (native index 8). -/
theorem claim_C4_witness :
    0 < demoLegacy.columns ∧ demoLegacy.columns ∣ demoLegacy.keys ∧
    translate_key_index demoLegacy 7 = Except.ok (translateFun demoLegacy 7) :=
  ⟨by decide, by decide,
    (claim_C4_amended demoLegacy (by decide) (by decide)).1 7 (by decide)⟩

/-! ## C5: unknown sub-tags -/

/-- C5 counterexample: the claim says a report with type tag `(0x02,0x0e)`
and a sub-tag pair outside the enumerated set decodes to `Input::Other`.
On the report `[1, 0x02, 0x0e, 0, 0, 0]` (sub-tag pair `(0,0)`) the code
instead reaches its `unimplemented!()` branch and aborts (modelled as
`none`), so no `Other` value is returned. -/
theorem claim_C5_counterexample :
    read_input demoV2 [1, 0x02, 0x0e, 0, 0, 0] = none ∧
    read_input demoV2 [1, 0x02, 0x0e, 0, 0, 0] ≠ some (Except.ok Input.Other) := by
  refine ⟨rfl, ?_⟩
  rw [show read_input demoV2 [1, 0x02, 0x0e, 0, 0, 0] = none from rfl]
  simp

/-- C5 amended: on a report with non-zero first byte, `read_input` aborts
(reaches `unimplemented!()`, modelled as `none`) exactly when the type tag
is `(0x02,0x0e)` with a sub-tag pair outside
`{(0x01,0x01),(0x02,0x01),(0x03,0x00)}` or the type tag is `(0x03,0x05)`
with a sub-tag byte outside `{0,1}`; every other unhandled type tag yields
the decodable `Input::Other`. -/
theorem claim_C5_amended (k : Capability) (cmd : List Nat)
    (h0 : cmd.getD 0 0 ≠ 0) :
    (read_input k cmd = none ↔
      ((cmd.getD 1 0 = 0x02 ∧ cmd.getD 2 0 = 0x0e ∧
        ¬(cmd.getD 4 0 = 0x01 ∧ cmd.getD 5 0 = 0x01) ∧
        ¬(cmd.getD 4 0 = 0x02 ∧ cmd.getD 5 0 = 0x01) ∧
        ¬(cmd.getD 4 0 = 0x03 ∧ cmd.getD 5 0 = 0x00)) ∨
       (cmd.getD 1 0 = 0x03 ∧ cmd.getD 2 0 = 0x05 ∧
        cmd.getD 4 0 ≠ 0 ∧ cmd.getD 4 0 ≠ 1))) ∧
    (¬(cmd.getD 1 0 = 0x00 ∧ cmd.getD 2 0 = 0x08) →
     ¬(cmd.getD 1 0 = 0x02 ∧ cmd.getD 2 0 = 0x0e) →
     ¬(cmd.getD 1 0 = 0x03 ∧ cmd.getD 2 0 = 0x05) →
      read_input k cmd = some (Except.ok Input.Other)) := by
  constructor
  · unfold read_input
    rw [if_neg h0]
    by_cases hb : cmd.getD 1 0 = 0x00 ∧ cmd.getD 2 0 = 0x08
    · rw [if_pos hb]
      obtain ⟨hb1, hb2⟩ := hb
      cases hdir : k.key_direction <;>
        exact ⟨fun hcon => absurd hcon (by simp),
               fun hcon => by rcases hcon with ⟨ha, _⟩ | ⟨ha, _⟩ <;> omega⟩
    · rw [if_neg hb]
      by_cases ht : cmd.getD 1 0 = 0x02 ∧ cmd.getD 2 0 = 0x0e
      · rw [if_pos ht]
        obtain ⟨ht1, ht2⟩ := ht
        by_cases h3 : cmd.getD 4 0 = 0x01 ∧ cmd.getD 5 0 = 0x01
        · rw [if_pos h3]
          refine ⟨fun hcon => absurd hcon (by simp), fun hcon => ?_⟩
          rcases hcon with ⟨_, _, hn1, _⟩ | ⟨ha, _⟩
          · exact absurd h3 hn1
          · omega
        · rw [if_neg h3]
          by_cases h4 : cmd.getD 4 0 = 0x02 ∧ cmd.getD 5 0 = 0x01
          · rw [if_pos h4]
            refine ⟨fun hcon => absurd hcon (by simp), fun hcon => ?_⟩
            rcases hcon with ⟨_, _, _, hn2, _⟩ | ⟨ha, _⟩
            · exact absurd h4 hn2
            · omega
          · rw [if_neg h4]
            by_cases h5 : cmd.getD 4 0 = 0x03 ∧ cmd.getD 5 0 = 0x00
            · rw [if_pos h5]
              refine ⟨fun hcon => absurd hcon (by simp), fun hcon => ?_⟩
              rcases hcon with ⟨_, _, _, _, hn3⟩ | ⟨ha, _⟩
              · exact absurd h5 hn3
              · omega
            · rw [if_neg h5]
              exact ⟨fun _ => Or.inl ⟨ht1, ht2, h3, h4, h5⟩, fun _ => rfl⟩
      · rw [if_neg ht]
        by_cases hk : cmd.getD 1 0 = 0x03 ∧ cmd.getD 2 0 = 0x05
        · rw [if_pos hk]
          obtain ⟨hk1, hk2⟩ := hk
          by_cases h6 : cmd.getD 4 0 = 0
          · rw [if_pos h6]
            refine ⟨fun hcon => absurd hcon (by simp), fun hcon => ?_⟩
            rcases hcon with ⟨ha, _⟩ | ⟨_, _, hn, _⟩
            · omega
            · exact absurd h6 hn
          · rw [if_neg h6]
            by_cases h7 : cmd.getD 4 0 = 1
            · rw [if_pos h7]
              refine ⟨fun hcon => absurd hcon (by simp), fun hcon => ?_⟩
              rcases hcon with ⟨ha, _⟩ | ⟨_, _, _, hn⟩
              · omega
              · exact absurd h7 hn
            · rw [if_neg h7]
              exact ⟨fun _ => Or.inr ⟨hk1, hk2, h6, h7⟩, fun _ => rfl⟩
        · rw [if_neg hk]
          refine ⟨fun hcon => absurd hcon (by simp), fun hcon => ?_⟩
          rcases hcon with ⟨ha1, ha2, _⟩ | ⟨ha1, ha2, _⟩
          · exact absurd (show cmd.getD 1 0 = 0x02 ∧ cmd.getD 2 0 = 0x0e from ⟨ha1, ha2⟩) ht
          · exact absurd (show cmd.getD 1 0 = 0x03 ∧ cmd.getD 2 0 = 0x05 from ⟨ha1, ha2⟩) hk
  · intro hb ht hk
    unfold read_input
    rw [if_neg h0, if_neg hb, if_neg ht, if_neg hk]

/-- C5 witness: the amended theorem instantiated on a knob report with the
out-of-range sub-tag 9, which the code aborts on. -/
theorem claim_C5_witness :
    ([1, 0x03, 0x05, 0, 9] : List Nat).getD 0 0 ≠ 0 ∧
    read_input demoV2 [1, 0x03, 0x05, 0, 9] = none :=
  ⟨by decide,
    (claim_C5_amended demoV2 [1, 0x03, 0x05, 0, 9] (by decide)).1.mpr
      (Or.inr (by refine ⟨rfl, rfl, ?_, ?_⟩ <;> decide))⟩

/-! ## C9: button decoding duplicated consistently -/

/-- C9: on a report whose type tag is `(0x00,0x08)`, `read_input` decodes
exactly the button vector `read_buttons` decodes from the same bytes (the
duplicated decoding loops agree), wrapped as `Input::Button`; errors agree
as well. -/
theorem claim_C9_read_equiv (k : Capability) (cmd : List Nat)
    (h1 : cmd.getD 1 0 = 0x00) (h2 : cmd.getD 2 0 = 0x08) :
    read_input k cmd = some (Except.map Input.Button (read_buttons k cmd)) := by
  unfold read_input read_buttons
  by_cases h0 : cmd.getD 0 0 = 0
  · rw [if_pos h0, if_pos h0]
    rfl
  · rw [if_neg h0, if_neg h0, if_pos ⟨h1, h2⟩]
    cases hdir : k.key_direction <;> rfl

/-- C9 witness: a left-to-right report with key 2 pressed decodes equally
through both paths. -/
theorem claim_C9_witness :
    read_input demoV2 [1, 0, 8, 0, 0, 0, 1] =
      some (Except.map Input.Button (read_buttons demoV2 [1, 0, 8, 0, 0, 0, 1])) :=
  claim_C9_read_equiv demoV2 [1, 0, 8, 0, 0, 0, 1] rfl rfl

/-! ## Chunking-step lemmas -/

lemma length_write_image_header (isV2 : Bool) (b : List Nat) (key seq : Nat)
    (isLast : Bool) (pl : Nat) (h : header_written_len isV2 ≤ b.length) :
    (write_image_header isV2 b key seq isLast pl).length = b.length := by
  unfold header_written_len at h
  cases isV2 <;>
    (unfold write_image_header
     simp only [Bool.false_eq_true, if_false, if_true]
     apply length_overwrite
     simp only [List.length_cons, List.length_nil]
     simp at h
     omega)

lemma getD_write_image_header_ge (isV2 : Bool) (b : List Nat) (key seq : Nat)
    (isLast : Bool) (pl i : Nat) (hi : header_written_len isV2 ≤ i)
    (hb : header_written_len isV2 ≤ b.length) :
    (write_image_header isV2 b key seq isLast pl).getD i 0 = b.getD i 0 := by
  unfold header_written_len at hi hb
  cases isV2 <;>
    (unfold write_image_header
     simp only [Bool.false_eq_true, if_false, if_true]
     apply getD_overwrite_after
     · simp only [List.length_cons, List.length_nil]
       simp at hi
       omega
     · simp only [List.length_cons, List.length_nil]
       simp at hb
       omega)

lemma slice_write_image_header_untouched (isV2 : Bool) (b : List Nat) (key seq : Nat)
    (isLast : Bool) (pl a e : Nat) (ha : header_written_len isV2 ≤ a)
    (hb : header_written_len isV2 ≤ b.length) :
    slice (write_image_header isV2 b key seq isLast pl) a e = slice b a e := by
  unfold header_written_len at ha hb
  cases isV2 <;>
    (unfold write_image_header
     simp only [Bool.false_eq_true, if_false, if_true]
     apply slice_overwrite_untouched
     · right
       simp only [List.length_cons, List.length_nil]
       simp at ha
       omega
     · simp only [List.length_cons, List.length_nil]
       simp at hb
       omega)

lemma stepTake_eq_ite_prop (hdrlen : Nat) (base image buf : List Nat) (seq offset : Nat) :
    stepTake hdrlen base image buf seq offset =
      if seq = 0 ∧ base.isEmpty = false
        then min (image.length - offset) (buf.length - hdrlen - base.length)
        else min (image.length - offset) (buf.length - hdrlen) := by
  unfold stepTake
  by_cases h1 : seq = 0 <;> by_cases h2 : base.isEmpty <;> simp [h1, h2]

lemma stepTake_le (hdrlen : Nat) (base image buf : List Nat) (seq offset : Nat) :
    stepTake hdrlen base image buf seq offset ≤ image.length - offset := by
  rw [stepTake_eq_ite_prop]
  split
  · exact min_le_left _ _
  · exact min_le_left _ _

lemma chunkStep_seq (isV2 : Bool) (hdrlen : Nat) (base image : List Nat) (key : Nat)
    (buf : List Nat) (seq offset : Nat) :
    (chunkStep isV2 hdrlen base image key buf seq offset).seq = seq := rfl

lemma chunkStep_off (isV2 : Bool) (hdrlen : Nat) (base image : List Nat) (key : Nat)
    (buf : List Nat) (seq offset : Nat) :
    (chunkStep isV2 hdrlen base image key buf seq offset).off = offset := rfl

lemma chunkStep_isLast (isV2 : Bool) (hdrlen : Nat) (base image : List Nat) (key : Nat)
    (buf : List Nat) (seq offset : Nat) :
    (chunkStep isV2 hdrlen base image key buf seq offset).isLast =
      (stepTake hdrlen base image buf seq offset == image.length - offset) := rfl

lemma chunkStep_payload (isV2 : Bool) (hdrlen : Nat) (base image : List Nat) (key : Nat)
    (buf : List Nat) (seq offset : Nat) :
    (chunkStep isV2 hdrlen base image key buf seq offset).payload =
      slice image offset (offset + stepTake hdrlen base image buf seq offset) := rfl

lemma chunkStep_payload_length (isV2 : Bool) (hdrlen : Nat) (base image : List Nat)
    (key : Nat) (buf : List Nat) (seq offset : Nat) (_hoff : offset ≤ image.length) :
    (chunkStep isV2 hdrlen base image key buf seq offset).payload.length =
      stepTake hdrlen base image buf seq offset := by
  rw [chunkStep_payload, length_slice]
  have h := stepTake_le hdrlen base image buf seq offset
  omega

lemma chunkStep_buf_length (isV2 : Bool) (hdrlen : Nat) (base image : List Nat)
    (key : Nat) (buf : List Nat) (seq offset : Nat)
    (Hhdr : header_written_len isV2 ≤ hdrlen)
    (Hcap : hdrlen ≤ buf.length)
    (Hfirst : seq = 0 → base.isEmpty = false → hdrlen + base.length ≤ buf.length)
    (hoff : offset ≤ image.length) :
    (chunkStep isV2 hdrlen base image key buf seq offset).buf.length = buf.length := by
  unfold chunkStep
  by_cases hcond : (seq == 0 && !base.isEmpty) = true
  · have hc1 : seq = 0 := by
      have h := hcond
      simp at h
      exact h.1
    have hc2 : base.isEmpty = false := by
      have h := hcond
      simp at h
      simp [h.2]
    have hbase : hdrlen + base.length ≤ buf.length := Hfirst hc1 hc2
    have h1 : (overwrite buf hdrlen base).length = buf.length :=
      length_overwrite _ _ _ hbase
    have h2 : (write_image_header isV2 (overwrite buf hdrlen base) key seq
        (stepTake hdrlen base image buf seq offset == image.length - offset)
        (stepTake hdrlen base image buf seq offset)).length = buf.length := by
      rw [length_write_image_header _ _ _ _ _ _ (by omega), h1]
    rw [hcond, if_pos rfl, if_pos rfl]
    rw [length_overwrite]
    · exact h2
    · rw [h2, length_slice]
      have ht : stepTake hdrlen base image buf seq offset ≤
          buf.length - hdrlen - base.length := by
        rw [stepTake_eq_ite_prop, if_pos ⟨hc1, hc2⟩]
        exact min_le_right _ _
      omega
  · have hcf : (seq == 0 && !base.isEmpty) = false := by
      simpa using hcond
    have h2 : (write_image_header isV2 buf key seq
        (stepTake hdrlen base image buf seq offset == image.length - offset)
        (stepTake hdrlen base image buf seq offset)).length = buf.length :=
      length_write_image_header _ _ _ _ _ _ (by omega)
    rw [hcf]
    simp only [Bool.false_eq_true, if_false]
    rw [length_overwrite]
    · exact h2
    · rw [h2, length_slice]
      have ht : stepTake hdrlen base image buf seq offset ≤ buf.length - hdrlen := by
        rw [stepTake_eq_ite_prop]
        split
        · have := min_le_right (image.length - offset) (buf.length - hdrlen - base.length)
          omega
        · exact min_le_right _ _
      omega

lemma writeLoop_done (isV2 : Bool) (hdrlen : Nat) (base image : List Nat) (key : Nat)
    (fuel : Nat) (buf : List Nat) (seq offset : Nat) (h : image.length ≤ offset) :
    writeLoop isV2 hdrlen base image key (fuel + 1) buf seq offset = some [] := by
  unfold writeLoop
  rw [if_neg (by omega)]

/-- Main invariant of the generic chunking loop: with the header fitting in
the header region, the header region strictly inside the report, and (on a
first chunk with non-empty base) the base also strictly inside the report,
the loop terminates within `image.length - offset` further iterations and
emits chunks whose payload lengths sum to the remaining byte count, whose
sequence numbers are contiguous from `seq`, whose `is_last` flag is set on
exactly the final chunk, and whose payloads are in-bounds slices of the
image of size `min(remaining, capacity)`. -/
lemma writeLoop_spec (isV2 : Bool) (hdrlen : Nat) (base image : List Nat) (key : Nat)
    (Hhdr : header_written_len isV2 ≤ hdrlen) :
    ∀ fuel offset seq (buf : List Nat), hdrlen < buf.length →
      (seq = 0 → base.isEmpty = false → hdrlen + base.length < buf.length) →
      image.length - offset < fuel →
      ∃ cs, writeLoop isV2 hdrlen base image key fuel buf seq offset = some cs ∧
        ((cs.map fun c => c.payload.length).sum = image.length - offset) ∧
        ((cs.map fun c => c.seq) = List.range' seq cs.length) ∧
        (offset < image.length →
          (cs.map fun c => c.isLast) = List.replicate (cs.length - 1) false ++ [true]) ∧
        (∀ c ∈ cs, c.off < image.length ∧
          c.payload = slice image c.off (c.off + c.payload.length) ∧
          c.off + c.payload.length ≤ image.length ∧
          c.buf.length = buf.length ∧
          c.payload.length = (if c.seq = 0 ∧ base.isEmpty = false
            then min (image.length - c.off) (buf.length - hdrlen - base.length)
            else min (image.length - c.off) (buf.length - hdrlen))) := by
  intro fuel
  induction fuel with
  | zero =>
    intro offset seq buf _ _ hfuel
    omega
  | succ fuel ih =>
    intro offset seq buf hcap hfirst hfuel
    by_cases hoff : offset < image.length
    · set c := chunkStep isV2 hdrlen base image key buf seq offset with hcdef
      have hcseq : c.seq = seq := rfl
      have hcoff : c.off = offset := rfl
      have hclen : c.payload.length = stepTake hdrlen base image buf seq offset :=
        chunkStep_payload_length _ _ _ _ _ _ _ _ (by omega)
      have hbuf3 : c.buf.length = buf.length :=
        chunkStep_buf_length _ _ _ _ _ _ _ _ Hhdr (by omega)
          (fun h1 h2 => by have := hfirst h1 h2; omega) (by omega)
      have hpos : 0 < c.payload.length := by
        rw [hclen, stepTake_eq_ite_prop]
        by_cases hcnd : seq = 0 ∧ base.isEmpty = false
        · rw [if_pos hcnd]
          have := hfirst hcnd.1 hcnd.2
          omega
        · rw [if_neg hcnd]
          omega
      have hle : c.payload.length ≤ image.length - offset := by
        rw [hclen]
        exact stepTake_le _ _ _ _ _ _
      have hcl : c.isLast = (stepTake hdrlen base image buf seq offset ==
          image.length - offset) := rfl
      have hstep : writeLoop isV2 hdrlen base image key (fuel + 1) buf seq offset =
          match writeLoop isV2 hdrlen base image key fuel c.buf (seq + 1)
              (offset + c.payload.length) with
          | none => none
          | some cs => some (c :: cs) := by
        conv_lhs => unfold writeLoop
        rw [if_pos hoff]
      have hformula : c.payload.length = (if c.seq = 0 ∧ base.isEmpty = false
          then min (image.length - c.off) (buf.length - hdrlen - base.length)
          else min (image.length - c.off) (buf.length - hdrlen)) := by
        rw [hcseq, hcoff, hclen, stepTake_eq_ite_prop]
      have hpayload : c.payload = slice image c.off (c.off + c.payload.length) := by
        rw [hcoff, hclen]
        rfl
      by_cases hlast : offset + c.payload.length < image.length
      · obtain ⟨cs', hcs', hsum', hseq', hlast', hmem'⟩ :=
          ih (offset + c.payload.length) (seq + 1) c.buf (by omega)
            (fun h => absurd h (Nat.succ_ne_zero seq)) (by omega)
        have hcliF : c.isLast = false := by
          rw [hcl]
          have hne : stepTake hdrlen base image buf seq offset ≠
              image.length - offset := by
            rw [← hclen]
            omega
          simp [hne]
        have hcs'ne : cs' ≠ [] := by
          intro hnil
          rw [hnil] at hsum'
          simp at hsum'
          omega
        refine ⟨c :: cs', ?_, ?_, ?_, ?_, ?_⟩
        · rw [hstep, hcs']
        · simp only [List.map_cons, List.sum_cons, hsum']
          omega
        · simp only [List.map_cons, List.length_cons, List.range'_succ]
          rw [hcseq, hseq']
        · intro _
          have h1 := hlast' (by omega)
          have hlen1 : 1 ≤ cs'.length := by
            cases cs' with
            | nil => exact absurd rfl hcs'ne
            | cons a l => simp
          simp only [List.map_cons, List.length_cons, Nat.add_sub_cancel]
          rw [hcliF, h1, ← List.cons_append, ← List.replicate_succ]
          have heq : cs'.length - 1 + 1 = cs'.length := by omega
          rw [heq]
        · intro d hd
          rcases List.mem_cons.mp hd with rfl | hd'
          · exact ⟨by omega, hpayload, by omega, hbuf3, hformula⟩
          · obtain ⟨p1, p2, p3, p4, p5⟩ := hmem' d hd'
            rw [hbuf3] at p4 p5
            exact ⟨p1, p2, p3, p4, p5⟩
      · have heq : c.payload.length = image.length - offset := by omega
        obtain ⟨f, rfl⟩ : ∃ f, fuel = f + 1 := ⟨fuel - 1, by omega⟩
        have hdone : writeLoop isV2 hdrlen base image key (f + 1) c.buf (seq + 1)
            (offset + c.payload.length) = some [] :=
          writeLoop_done _ _ _ _ _ _ _ _ _ (by omega)
        have hcliT : c.isLast = true := by
          rw [hcl, ← hclen, heq]
          simp
        refine ⟨[c], ?_, ?_, ?_, ?_, ?_⟩
        · rw [hstep, hdone]
        · simp only [List.map_cons, List.map_nil, List.sum_cons, List.sum_nil]
          omega
        · simp only [List.map_cons, List.map_nil, List.length_cons, List.length_nil]
          rw [hcseq, List.range'_one]
        · intro _
          simp only [List.map_cons, List.map_nil, List.length_cons, List.length_nil,
            Nat.sub_self, List.replicate_zero, List.nil_append]
          rw [hcliT]
        · intro d hd
          rcases List.mem_cons.mp hd with rfl | hd'
          · exact ⟨by omega, hpayload, by omega, hbuf3, hformula⟩
          · exact absurd hd' (List.not_mem_nil d)
    · refine ⟨[], ?_, ?_, ?_, ?_, ?_⟩
      · unfold writeLoop
        rw [if_neg hoff]
      · simp only [List.map_nil, List.sum_nil]
        omega
      · simp
      · intro h
        exact absurd h hoff
      · intro d hd
        exact absurd hd (List.not_mem_nil d)

lemma chunkStep_buf_eq (isV2 : Bool) (hdrlen : Nat) (base image : List Nat) (key : Nat)
    (buf : List Nat) (seq offset : Nat) :
    (chunkStep isV2 hdrlen base image key buf seq offset).buf =
      overwrite
        (write_image_header isV2
          (if seq == 0 && !base.isEmpty then overwrite buf hdrlen base else buf)
          key seq
          (stepTake hdrlen base image buf seq offset == image.length - offset)
          (stepTake hdrlen base image buf seq offset))
        (if seq == 0 && !base.isEmpty then hdrlen + base.length else hdrlen)
        (slice image offset (offset + stepTake hdrlen base image buf seq offset)) := rfl

/-- On the very first chunk (sequence 0), built on the freshly zeroed
report buffer, every byte at or past the end of the payload region is zero,
and the base bytes sit immediately after the header region. -/
lemma chunkStep_first_clean (isV2 : Bool) (hdrlen replen : Nat) (base image : List Nat)
    (key offset : Nat) (Hhdr : header_written_len isV2 ≤ hdrlen)
    (hfit : hdrlen + base.length ≤ replen) (hoff : offset ≤ image.length) :
    (∀ i, hdrlen + base.length +
        (chunkStep isV2 hdrlen base image key (List.replicate replen 0) 0 offset).payload.length ≤ i →
        i < replen →
        (chunkStep isV2 hdrlen base image key (List.replicate replen 0) 0 offset).buf.getD i 0 = 0) ∧
    slice (chunkStep isV2 hdrlen base image key (List.replicate replen 0) 0 offset).buf
        hdrlen (hdrlen + base.length) = base := by
  have hlenrep : (List.replicate replen (0 : Nat)).length = replen := List.length_replicate _ _
  have hplen : (chunkStep isV2 hdrlen base image key (List.replicate replen 0) 0 offset).payload.length =
      stepTake hdrlen base image (List.replicate replen 0) 0 offset :=
    chunkStep_payload_length _ _ _ _ _ _ _ _ hoff
  by_cases hbase : base.isEmpty = true
  · have hbnil : base = [] := List.isEmpty_iff.mp hbase
    subst hbnil
    have hcond : ((0 == 0 : Bool) && !(List.isEmpty ([] : List Nat))) = false := by simp
    have htk : stepTake hdrlen [] image (List.replicate replen 0) 0 offset ≤ replen - hdrlen := by
      rw [stepTake_eq_ite_prop]
      simp only [List.isEmpty_nil]
      rw [if_neg (by simp)]
      have := min_le_right (image.length - offset) ((List.replicate replen (0:Nat)).length - hdrlen)
      omega
    have hb2len : (write_image_header isV2 (List.replicate replen 0) key 0
        (stepTake hdrlen [] image (List.replicate replen 0) 0 offset == image.length - offset)
        (stepTake hdrlen [] image (List.replicate replen 0) 0 offset)).length = replen := by
      rw [length_write_image_header _ _ _ _ _ _ (by omega), hlenrep]
    constructor
    · intro i h1 h2
      rw [hplen] at h1
      rw [chunkStep_buf_eq, hcond]
      simp only [Bool.false_eq_true, if_false, List.length_nil, Nat.add_zero] at h1 ⊢
      rw [getD_overwrite_after]
      · rw [getD_write_image_header_ge _ _ _ _ _ _ _ (by omega) (by rw [hlenrep]; omega)]
        exact getD_replicate_zero _ _
      · rw [length_slice]
        omega
      · rw [hb2len, length_slice]
        omega
    · rw [chunkStep_buf_eq, hcond]
      simp only [List.length_nil, Nat.add_zero]
      simp [slice]
  · have hbf : base.isEmpty = false := by
      simpa using hbase
    have hbpos : 0 < base.length := by
      cases base with
      | nil => simp at hbf
      | cons a l => simp
    have hcond : ((0 == 0 : Bool) && !base.isEmpty) = true := by simp [hbf]
    have htk : stepTake hdrlen base image (List.replicate replen 0) 0 offset ≤
        replen - hdrlen - base.length := by
      rw [stepTake_eq_ite_prop, if_pos ⟨rfl, hbf⟩, hlenrep]
      exact min_le_right _ _
    have hb1len : (overwrite (List.replicate replen 0) hdrlen base).length = replen := by
      rw [length_overwrite _ _ _ (by rw [hlenrep]; omega), hlenrep]
    have hb2len : (write_image_header isV2 (overwrite (List.replicate replen 0) hdrlen base) key 0
        (stepTake hdrlen base image (List.replicate replen 0) 0 offset == image.length - offset)
        (stepTake hdrlen base image (List.replicate replen 0) 0 offset)).length = replen := by
      rw [length_write_image_header _ _ _ _ _ _ (by rw [hb1len]; omega), hb1len]
    constructor
    · intro i h1 h2
      rw [hplen] at h1
      rw [chunkStep_buf_eq, hcond, if_pos rfl, if_pos rfl]
      rw [getD_overwrite_after]
      · rw [getD_write_image_header_ge _ _ _ _ _ _ _ (by omega) (by rw [hb1len]; omega)]
        rw [getD_overwrite_after _ _ _ _ (by omega) (by rw [hlenrep]; omega)]
        exact getD_replicate_zero _ _
      · rw [length_slice]
        omega
      · rw [hb2len, length_slice]
        omega
    · rw [chunkStep_buf_eq, hcond, if_pos rfl, if_pos rfl]
      rw [slice_overwrite_untouched _ _ _ _ _ (Or.inl (le_refl _))
          (by rw [hb2len, length_slice]; omega)]
      rw [slice_write_image_header_untouched _ _ _ _ _ _ _ _ (by omega) (by rw [hb1len]; omega)]
      exact slice_overwrite_self _ _ _ (by rw [hlenrep]; omega)

lemma translate_key_index_ok (k : Capability) (key : Nat) (hkey : key ≤ k.keys) :
    ∃ key2, translate_key_index k key = Except.ok key2 := by
  unfold translate_key_index
  rw [if_neg (by omega : ¬ key > k.keys)]
  cases k.key_direction
  · exact ⟨_, rfl⟩
  · exact ⟨_, rfl⟩

lemma write_button_image_eq_loop (caps : Kind → Capability) (kind : Kind)
    (fuel key key2 : Nat) (image : List Nat) (hkind : kind ≠ Kind.Original)
    (htr : translate_key_index (caps kind) key = Except.ok key2) :
    write_button_image caps kind fuel key image =
      Except.ok (writeLoop (caps kind).is_v2 (caps kind).image_report_header_len
        (caps kind).image_base image key2 fuel
        (List.replicate (caps kind).image_report_len 0) 0 0) := by
  unfold write_button_image
  rw [htr]
  cases kind
  · exact absurd rfl hkind
  · rfl
  · rfl
  · rfl
  · rfl
  · rfl

/-! ## C2: generic chunking completeness -/

/-- C2: on every non-`Original` device record whose header fits its header
region and whose header plus base leave at least one byte of payload
capacity, and for every non-empty image, `write_button_image` emits a
finite chunk sequence whose payload lengths sum to the image length, whose
`is_last` flag is true on exactly the last chunk, whose sequence numbers
are contiguous `0..n-1`, and each of whose payloads is the in-bounds image
slice of size `min(remaining, capacity)`, the capacity being reduced by
`image_base.len()` exactly on a first chunk with non-empty base. -/
theorem claim_C2_chunking (caps : Kind → Capability) (kind : Kind) (fuel key : Nat)
    (image : List Nat)
    (hkind : kind ≠ Kind.Original)
    (Hhdr : header_written_len (caps kind).is_v2 ≤ (caps kind).image_report_header_len)
    (Hstrict : (caps kind).image_report_header_len + (caps kind).image_base.length <
      (caps kind).image_report_len)
    (hkey : key ≤ (caps kind).keys)
    (hL : 0 < image.length)
    (hfuel : image.length < fuel) :
    ∃ cs, write_button_image caps kind fuel key image = Except.ok (some cs) ∧
      ((cs.map fun c => c.payload.length).sum = image.length) ∧
      ((cs.map fun c => c.seq) = List.range cs.length) ∧
      ((cs.map fun c => c.isLast) = List.replicate (cs.length - 1) false ++ [true]) ∧
      (∀ c ∈ cs,
        c.payload = slice image c.off (c.off + c.payload.length) ∧
        c.off + c.payload.length ≤ image.length ∧
        c.payload.length = (if c.seq = 0 ∧ (caps kind).image_base.isEmpty = false
          then min (image.length - c.off)
            ((caps kind).image_report_len - (caps kind).image_report_header_len -
              (caps kind).image_base.length)
          else min (image.length - c.off)
            ((caps kind).image_report_len - (caps kind).image_report_header_len))) := by
  obtain ⟨key2, htr⟩ := translate_key_index_ok (caps kind) key hkey
  have hlenrep : (List.replicate (caps kind).image_report_len (0 : Nat)).length =
      (caps kind).image_report_len := List.length_replicate _ _
  obtain ⟨cs, hcs, hsum, hseq, hlastf, hmem⟩ :=
    writeLoop_spec (caps kind).is_v2 (caps kind).image_report_header_len
      (caps kind).image_base image key2 Hhdr fuel 0 0
      (List.replicate (caps kind).image_report_len 0)
      (by rw [hlenrep]; omega) (fun _ _ => by rw [hlenrep]; omega) (by omega)
  refine ⟨cs, ?_, ?_, ?_, ?_, ?_⟩
  · rw [write_button_image_eq_loop caps kind fuel key key2 image hkind htr, hcs]
  · rw [hsum]
    omega
  · rw [hseq, List.range_eq_range']
  · exact hlastf hL
  · intro c hc
    obtain ⟨p1, p2, p3, p4, p5⟩ := hmem c hc
    rw [hlenrep] at p5
    exact ⟨p2, p3, p5⟩

/-- C2 witness: a 5-byte image on a 12-byte-report device with an 8-byte
header and empty base (two chunks: 4 bytes then 1 byte). -/
theorem claim_C2_witness :
    Kind.Xl ≠ Kind.Original ∧
    header_written_len demoV2.is_v2 ≤ demoV2.image_report_header_len ∧
    demoV2.image_report_header_len + demoV2.image_base.length <
      demoV2.image_report_len ∧
    (∃ cs, write_button_image (fun _ => demoV2) Kind.Xl 6 0 [1, 2, 3, 4, 5] =
        Except.ok (some cs) ∧
      ((cs.map fun c => c.payload.length).sum = 5)) := by
  refine ⟨by decide, by decide, by decide, ?_⟩
  obtain ⟨cs, h1, h2, _⟩ :=
    claim_C2_chunking (fun _ => demoV2) Kind.Xl 6 0 [1, 2, 3, 4, 5]
      (by decide) (by decide) (by decide) (by decide) (by decide) (by decide)
  exact ⟨cs, h1, h2⟩

/-! ## C10: termination of the generic chunking loop -/

lemma length_le_sum_of_pos (l : List Nat) (h : ∀ x ∈ l, 0 < x) : l.length ≤ l.sum := by
  induction l with
  | nil => simp
  | cons a t ih =>
    simp only [List.length_cons, List.sum_cons]
    have ha := h a (List.mem_cons_self a t)
    have ht := ih (fun x hx => h x (List.mem_cons_of_mem a hx))
    omega

/-- Divergence in the zero-capacity corner: when the report is all header
(`buf.len() = hdrlen`) and the base is empty, every chunk's payload is
empty, the offset never advances, and the loop never terminates (the
fuelled model returns `none` for every fuel). -/
lemma writeLoop_diverges (isV2 : Bool) (hdrlen : Nat) (image : List Nat) (key : Nat)
    (Hhdr : header_written_len isV2 ≤ hdrlen) :
    ∀ fuel (buf : List Nat) (seq offset : Nat), buf.length = hdrlen →
      offset < image.length →
      writeLoop isV2 hdrlen [] image key fuel buf seq offset = none := by
  intro fuel
  induction fuel with
  | zero =>
    intro buf seq offset _ _
    rfl
  | succ fuel ih =>
    intro buf seq offset hbuf hoff
    have hplen0 : (chunkStep isV2 hdrlen [] image key buf seq offset).payload.length = 0 := by
      rw [chunkStep_payload_length _ _ _ _ _ _ _ _ (by omega), stepTake_eq_ite_prop]
      rw [if_neg (by simp)]
      omega
    have hbuf' : (chunkStep isV2 hdrlen [] image key buf seq offset).buf.length = hdrlen := by
      rw [chunkStep_buf_length _ _ _ _ _ _ _ _ Hhdr (by omega)
        (fun _ h => by simp at h) (by omega), hbuf]
    have hoffeq : offset + (chunkStep isV2 hdrlen [] image key buf seq offset).payload.length =
        offset := by
      omega
    unfold writeLoop
    rw [if_pos hoff, hoffeq, ih _ _ _ hbuf' hoff]

/-- C10 counterexample: the claim asserts that when
`image_report_header_len + image_base.len() = image_report_len` (the
non-strict boundary) a non-empty image never makes progress. With an
8-byte header, a 4-byte base and a 12-byte report (so capacity is zero
only on the first chunk), the loop emits an empty first chunk, then from
sequence 1 the base no longer reduces the capacity: the single image byte
is written and the loop terminates after two chunks. -/
theorem claim_C10_counterexample :
    8 + ([9, 9, 9, 9] : List Nat).length = 12 ∧
    writeLoop true 8 [9, 9, 9, 9] [7] 0 3 (List.replicate 12 0) 0 0 =
      some [⟨0, 0, false, [], [2, 7, 0, 0, 0, 0, 0, 0, 9, 9, 9, 9]⟩,
            ⟨1, 0, true, [7], [2, 7, 0, 1, 1, 0, 1, 0, 7, 9, 9, 9]⟩] ∧
    (([(⟨0, 0, false, [], [2, 7, 0, 0, 0, 0, 0, 0, 9, 9, 9, 9]⟩ : Chunk),
       ⟨1, 0, true, [7], [2, 7, 0, 1, 1, 0, 1, 0, 7, 9, 9, 9]⟩].map
        fun c => c.payload.length).sum = 1) := by
  refine ⟨by decide, by decide, by decide⟩

/-- C10 amended: (1) with strict capacity
(`image_report_header_len + image_base.len() < image_report_len`) the
generic loop of `write_button_image` terminates within `image.length`
iterations and every chunk makes strictly positive progress; (2) when the
capacity is identically zero (`buf.len() = hdrlen`, empty base) a
non-empty image never makes progress: the loop diverges (`none` at every
fuel); (3) at the non-strict boundary with a non-empty base, only the
first chunk is empty and the loop still terminates, writing the whole
image. -/
theorem claim_C10_amended :
    (∀ (caps : Kind → Capability) (kind : Kind) (fuel key : Nat) (image : List Nat),
      kind ≠ Kind.Original →
      header_written_len (caps kind).is_v2 ≤ (caps kind).image_report_header_len →
      (caps kind).image_report_header_len + (caps kind).image_base.length <
        (caps kind).image_report_len →
      key ≤ (caps kind).keys →
      image.length < fuel →
      ∃ cs, write_button_image caps kind fuel key image = Except.ok (some cs) ∧
        cs.length ≤ image.length ∧
        (∀ c ∈ cs, 0 < c.payload.length)) ∧
    (∀ (isV2 : Bool) (hdrlen : Nat) (image : List Nat) (key fuel seq offset : Nat)
        (buf : List Nat),
      header_written_len isV2 ≤ hdrlen →
      buf.length = hdrlen →
      offset < image.length →
      writeLoop isV2 hdrlen [] image key fuel buf seq offset = none) ∧
    (∀ (isV2 : Bool) (hdrlen replen : Nat) (base image : List Nat) (key fuel : Nat),
      header_written_len isV2 ≤ hdrlen →
      hdrlen + base.length = replen →
      base.isEmpty = false →
      0 < image.length →
      image.length + 1 < fuel →
      ∃ cs, writeLoop isV2 hdrlen base image key fuel
          (List.replicate replen 0) 0 0 = some cs ∧
        ((cs.map fun c => c.payload.length).sum = image.length)) := by
  refine ⟨?_, ?_, ?_⟩
  · intro caps kind fuel key image hkind Hhdr Hstrict hkey hfuel
    obtain ⟨key2, htr⟩ := translate_key_index_ok (caps kind) key hkey
    have hlenrep : (List.replicate (caps kind).image_report_len (0 : Nat)).length =
        (caps kind).image_report_len := List.length_replicate _ _
    obtain ⟨cs, hcs, hsum, _, _, hmem⟩ :=
      writeLoop_spec (caps kind).is_v2 (caps kind).image_report_header_len
        (caps kind).image_base image key2 Hhdr fuel 0 0
        (List.replicate (caps kind).image_report_len 0)
        (by rw [hlenrep]; omega) (fun _ _ => by rw [hlenrep]; omega) (by omega)
    have hpos : ∀ c ∈ cs, 0 < c.payload.length := by
      intro c hc
      obtain ⟨p1, _, _, _, p5⟩ := hmem c hc
      rw [hlenrep] at p5
      rw [p5]
      by_cases hcnd : c.seq = 0 ∧ (caps kind).image_base.isEmpty = false
      · rw [if_pos hcnd]
        omega
      · rw [if_neg hcnd]
        omega
    refine ⟨cs, ?_, ?_, hpos⟩
    · rw [write_button_image_eq_loop caps kind fuel key key2 image hkind htr, hcs]
    · have h1 : (cs.map fun c => c.payload.length).length ≤
          (cs.map fun c => c.payload.length).sum := by
        apply length_le_sum_of_pos
        intro x hx
        obtain ⟨c, hc, rfl⟩ := List.mem_map.mp hx
        exact hpos c hc
      rw [List.length_map] at h1
      omega
  · intro isV2 hdrlen image key fuel seq offset buf Hhdr hbuf hoff
    exact writeLoop_diverges isV2 hdrlen image key Hhdr fuel buf seq offset hbuf hoff
  · intro isV2 hdrlen replen base image key fuel Hhdr heq hbf hL hfuel
    obtain ⟨f, rfl⟩ : ∃ f, fuel = f + 1 := ⟨fuel - 1, by omega⟩
    have hlenrep : (List.replicate replen (0 : Nat)).length = replen :=
      List.length_replicate _ _
    have hbpos : 0 < base.length := by
      cases base with
      | nil => simp at hbf
      | cons a l => simp
    set c := chunkStep isV2 hdrlen base image key (List.replicate replen 0) 0 0 with hcdef
    have hplen0 : c.payload.length = 0 := by
      rw [chunkStep_payload_length _ _ _ _ _ _ _ _ (by omega), stepTake_eq_ite_prop]
      rw [if_pos ⟨rfl, hbf⟩, hlenrep]
      omega
    have hbuf3 : c.buf.length = replen := by
      rw [chunkStep_buf_length _ _ _ _ _ _ _ _ Hhdr (by rw [hlenrep]; omega)
        (fun _ _ => by rw [hlenrep]; omega) (by omega), hlenrep]
    obtain ⟨cs', hcs', hsum', _, _, _⟩ :=
      writeLoop_spec isV2 hdrlen base image key Hhdr f 0 1 c.buf
        (by omega) (fun h _ => absurd h (Nat.succ_ne_zero 0)) (by omega)
    refine ⟨c :: cs', ?_, ?_⟩
    · have hstep : writeLoop isV2 hdrlen base image key (f + 1)
          (List.replicate replen 0) 0 0 =
          match writeLoop isV2 hdrlen base image key f c.buf (0 + 1)
              (0 + c.payload.length) with
          | none => none
          | some cs => some (c :: cs) := by
        conv_lhs => unfold writeLoop
        rw [if_pos (show (0 : Nat) < image.length by omega)]
      have hx : (0 : Nat) + c.payload.length = 0 := by omega
      have hy : (0 : Nat) + 1 = 1 := rfl
      rw [hstep, hx, hy, hcs']
    · simp only [List.map_cons, List.sum_cons, hplen0, hsum']
      omega

/-! ## C6: report buffers and stale bytes -/

/-- C6 counterexample: the claim says every byte of every emitted report
outside that chunk's header, base prefix and payload is zero. On a 12-byte
report with 8-byte header and empty base, writing the 5-byte image
`[1,2,3,4,5]` emits two reports; the second chunk's payload is the single
byte 5 at position 8, yet positions 9, 10, 11 of the second report still
hold the bytes 2, 3, 4 of the first chunk's payload, because the code
reuses the report buffer without re-zeroing it. -/
theorem claim_C6_counterexample :
    write_button_image (fun _ => demoV2) Kind.Xl 10 0 [1, 2, 3, 4, 5] =
      Except.ok (some
        [⟨0, 0, false, [1, 2, 3, 4], [2, 7, 0, 0, 4, 0, 0, 0, 1, 2, 3, 4]⟩,
         ⟨1, 4, true, [5], [2, 7, 0, 1, 1, 0, 1, 0, 5, 2, 3, 4]⟩]) ∧
    demoV2.image_report_header_len = 8 ∧
    demoV2.image_base = [] ∧
    ([2, 7, 0, 1, 1, 0, 1, 0, 5, 2, 3, 4] : List Nat).getD 9 0 = 2 := by
  refine ⟨rfl, by decide, by decide, by decide⟩

/-- C6 amended: only the first emitted report is guaranteed clean — every
byte of the first chunk's report at or past the end of its payload region
is zero, and the base bytes sit immediately after the header region;
subsequent reports may retain bytes of earlier, longer chunks beyond their
own payload (the buffer is reused without re-zeroing, see the
counterexample). The writer never reads out of bounds: every chunk's
payload is the in-bounds image slice at its offset. -/
theorem claim_C6_amended (caps : Kind → Capability) (kind : Kind) (fuel key : Nat)
    (image : List Nat)
    (hkind : kind ≠ Kind.Original)
    (Hhdr : header_written_len (caps kind).is_v2 ≤ (caps kind).image_report_header_len)
    (Hstrict : (caps kind).image_report_header_len + (caps kind).image_base.length <
      (caps kind).image_report_len)
    (hkey : key ≤ (caps kind).keys)
    (hL : 0 < image.length)
    (hfuel : image.length < fuel) :
    ∃ c cs, write_button_image caps kind fuel key image = Except.ok (some (c :: cs)) ∧
      (∀ i, (caps kind).image_report_header_len + (caps kind).image_base.length +
          c.payload.length ≤ i → i < (caps kind).image_report_len →
          c.buf.getD i 0 = 0) ∧
      slice c.buf (caps kind).image_report_header_len
          ((caps kind).image_report_header_len + (caps kind).image_base.length) =
        (caps kind).image_base ∧
      (∀ d ∈ c :: cs, d.payload = slice image d.off (d.off + d.payload.length) ∧
        d.off + d.payload.length ≤ image.length) := by
  obtain ⟨key2, htr⟩ := translate_key_index_ok (caps kind) key hkey
  have hlenrep : (List.replicate (caps kind).image_report_len (0 : Nat)).length =
      (caps kind).image_report_len := List.length_replicate _ _
  obtain ⟨f, rfl⟩ : ∃ f, fuel = f + 1 := ⟨fuel - 1, by omega⟩
  set c := chunkStep (caps kind).is_v2 (caps kind).image_report_header_len
      (caps kind).image_base image key2 (List.replicate (caps kind).image_report_len 0)
      0 0 with hcdef
  have hplen : c.payload.length = stepTake (caps kind).image_report_header_len
      (caps kind).image_base image (List.replicate (caps kind).image_report_len 0) 0 0 :=
    chunkStep_payload_length _ _ _ _ _ _ _ _ (by omega)
  have hle : c.payload.length ≤ image.length := by
    rw [hplen]
    have := stepTake_le (caps kind).image_report_header_len (caps kind).image_base image
      (List.replicate (caps kind).image_report_len 0) 0 0
    omega
  have hpos : 0 < c.payload.length := by
    rw [hplen, stepTake_eq_ite_prop]
    by_cases hcnd : (0 : Nat) = 0 ∧ (caps kind).image_base.isEmpty = false
    · rw [if_pos hcnd, hlenrep]
      omega
    · rw [if_neg hcnd, hlenrep]
      omega
  have hbuf3 : c.buf.length = (caps kind).image_report_len := by
    rw [chunkStep_buf_length _ _ _ _ _ _ _ _ Hhdr (by rw [hlenrep]; omega)
      (fun _ _ => by rw [hlenrep]; omega) (by omega), hlenrep]
  obtain ⟨cs', hcs', hsum', _, _, hmem'⟩ :=
    writeLoop_spec (caps kind).is_v2 (caps kind).image_report_header_len
      (caps kind).image_base image key2 Hhdr f (0 + c.payload.length) (0 + 1) c.buf
      (by omega) (fun h _ => absurd h (Nat.succ_ne_zero 0)) (by omega)
  have hclean := chunkStep_first_clean (caps kind).is_v2
    (caps kind).image_report_header_len (caps kind).image_report_len
    (caps kind).image_base image key2 0 Hhdr (by omega) (by omega)
  refine ⟨c, cs', ?_, ?_, ?_, ?_⟩
  · have hstep : writeLoop (caps kind).is_v2 (caps kind).image_report_header_len
        (caps kind).image_base image key2 (f + 1)
        (List.replicate (caps kind).image_report_len 0) 0 0 =
        match writeLoop (caps kind).is_v2 (caps kind).image_report_header_len
            (caps kind).image_base image key2 f c.buf (0 + 1)
            (0 + c.payload.length) with
        | none => none
        | some cs => some (c :: cs) := by
      conv_lhs => unfold writeLoop
      rw [if_pos (show (0 : Nat) < image.length by omega)]
    rw [write_button_image_eq_loop caps kind (f + 1) key key2 image hkind htr,
      hstep, hcs']
  · exact hclean.1
  · exact hclean.2
  · intro d hd
    rcases List.mem_cons.mp hd with rfl | hd'
    · have hoff0 : c.off = 0 := rfl
      constructor
      · rw [hoff0, hplen]
        rfl
      · omega
    · obtain ⟨_, p2, p3, _, _⟩ := hmem' d hd'
      exact ⟨p2, p3⟩

/-- C6 witness: the amended theorem instantiated on the two-chunk transfer
of the counterexample; the first report is clean past its payload. -/
theorem claim_C6_witness :
    Kind.Xl ≠ Kind.Original ∧
    (∃ c cs, write_button_image (fun _ => demoV2) Kind.Xl 6 0 [1, 2, 3, 4, 5] =
        Except.ok (some (c :: cs)) ∧
      (∀ d ∈ c :: cs, d.payload = slice [1, 2, 3, 4, 5] d.off (d.off + d.payload.length) ∧
        d.off + d.payload.length ≤ ([1, 2, 3, 4, 5] : List Nat).length)) := by
  refine ⟨by decide, ?_⟩
  obtain ⟨c, cs, h1, _, _, h4⟩ :=
    claim_C6_amended (fun _ => demoV2) Kind.Xl 6 0 [1, 2, 3, 4, 5]
      (by decide) (by decide) (by decide) (by decide) (by decide) (by decide)
  exact ⟨c, cs, h1, h4⟩

/-- C10 witness: part (2) of the amended theorem instantiated: with an
all-header 8-byte report and empty base, a 3-byte image diverges. -/
theorem claim_C10_witness :
    header_written_len true ≤ 8 ∧
    (List.replicate 8 (0 : Nat)).length = 8 ∧
    (0 : Nat) < ([1, 2, 3] : List Nat).length ∧
    writeLoop true 8 [] [1, 2, 3] 0 5 (List.replicate 8 0) 0 0 = none :=
  ⟨by decide, by decide, by decide,
    claim_C10_amended.2.1 true 8 [1, 2, 3] 0 5 0 0 (List.replicate 8 0)
      (by decide) (by decide) (by decide)⟩

/-! ## C3: legacy fixed split for the Original device -/

lemma getD_write_image_header_legacy (b : List Nat) (key seq : Nat) (isLast : Bool)
    (pl i : Nat) (hi : i < 6) (hb : 6 ≤ b.length) :
    (write_image_header false b key seq isLast pl).getD i 0 =
      [0x02, 0x01, le16lo seq, le16hi seq,
        if isLast then 1 else 0, key % 256].getD i 0 := by
  unfold write_image_header
  simp only [Bool.false_eq_true, if_false]
  have h := getD_overwrite_at b
    [0x02, 0x01, le16lo seq, le16hi seq, if isLast then 1 else 0, key % 256] 0 i
    (Nat.zero_le _) (by simpa using hi) (by simpa using hb)
  simpa using h

/-- C3: on the `Original` device (legacy feature layout, `is_v2 = false`)
with an image of at least 15552 bytes, `write_button_image` emits exactly
two reports: report 1 with sequence 1, `is_last` false, the `image_base`
bytes immediately after the header region, then image bytes `[0, 7749)`;
report 2 with sequence 2, `is_last` true, then image bytes
`[7749, 15552)`. The byte counts 7749 and 7803 are fixed constants; the
theorem holds for every `image_report_len` large enough to hold the copies,
with the sequence and `is_last` bytes visible at the legacy header
offsets 2 and 4. -/
theorem claim_C3_original (caps : Kind → Capability) (fuel key : Nat) (image : List Nat)
    (hv2 : (caps Kind.Original).is_v2 = false)
    (hkey : key ≤ (caps Kind.Original).keys)
    (hL : 15552 ≤ image.length)
    (Hhdr : 6 ≤ (caps Kind.Original).image_report_header_len)
    (Hfit1 : (caps Kind.Original).image_report_header_len +
        (caps Kind.Original).image_base.length + 7749 ≤
      (caps Kind.Original).image_report_len)
    (Hfit2 : (caps Kind.Original).image_report_header_len + 7803 ≤
      (caps Kind.Original).image_report_len) :
    ∃ key2 c1 c2, translate_key_index (caps Kind.Original) key = Except.ok key2 ∧
      write_button_image caps Kind.Original fuel key image = Except.ok (some [c1, c2]) ∧
      c1.seq = 1 ∧ c1.isLast = false ∧ c1.payload = slice image 0 7749 ∧
      c1.payload.length = 7749 ∧
      c2.seq = 2 ∧ c2.isLast = true ∧ c2.payload = slice image 7749 15552 ∧
      c2.payload.length = 7803 ∧
      slice c1.buf (caps Kind.Original).image_report_header_len
          ((caps Kind.Original).image_report_header_len +
            (caps Kind.Original).image_base.length) = (caps Kind.Original).image_base ∧
      slice c1.buf ((caps Kind.Original).image_report_header_len +
          (caps Kind.Original).image_base.length)
          ((caps Kind.Original).image_report_header_len +
            (caps Kind.Original).image_base.length + 7749) = slice image 0 7749 ∧
      slice c2.buf (caps Kind.Original).image_report_header_len
          ((caps Kind.Original).image_report_header_len + 7803) =
        slice image 7749 15552 ∧
      c1.buf.getD 2 0 = 1 ∧ c1.buf.getD 3 0 = 0 ∧ c1.buf.getD 4 0 = 0 ∧
      c2.buf.getD 2 0 = 2 ∧ c2.buf.getD 3 0 = 0 ∧ c2.buf.getD 4 0 = 1 := by
  obtain ⟨key2, htr⟩ := translate_key_index_ok (caps Kind.Original) key hkey
  have hlw : header_written_len false = 6 := rfl
  have hlb0 : (List.replicate (caps Kind.Original).image_report_len (0 : Nat)).length =
      (caps Kind.Original).image_report_len := List.length_replicate _ _
  have hp1len : (slice image 0 7749).length = 7749 := by
    rw [length_slice]
    omega
  have hp2len : (slice image 7749 15552).length = 7803 := by
    rw [length_slice]
    omega
  have hlb1 : (write_image_header false
      (List.replicate (caps Kind.Original).image_report_len 0) key2 1 false 0).length =
      (caps Kind.Original).image_report_len := by
    rw [length_write_image_header _ _ _ _ _ _ (by rw [hlw, hlb0]; omega), hlb0]
  have hlb2 : (overwrite (write_image_header false
      (List.replicate (caps Kind.Original).image_report_len 0) key2 1 false 0)
      (caps Kind.Original).image_report_header_len
      (caps Kind.Original).image_base).length =
      (caps Kind.Original).image_report_len := by
    rw [length_overwrite _ _ _ (by rw [hlb1]; omega), hlb1]
  have hlb3 : (overwrite (overwrite (write_image_header false
      (List.replicate (caps Kind.Original).image_report_len 0) key2 1 false 0)
      (caps Kind.Original).image_report_header_len (caps Kind.Original).image_base)
      ((caps Kind.Original).image_report_header_len +
        (caps Kind.Original).image_base.length)
      (slice image 0 7749)).length = (caps Kind.Original).image_report_len := by
    rw [length_overwrite _ _ _ (by rw [hp1len, hlb2]; omega), hlb2]
  have hlb4 : (write_image_header false
      (overwrite (overwrite (write_image_header false
        (List.replicate (caps Kind.Original).image_report_len 0) key2 1 false 0)
        (caps Kind.Original).image_report_header_len (caps Kind.Original).image_base)
        ((caps Kind.Original).image_report_header_len +
          (caps Kind.Original).image_base.length)
        (slice image 0 7749)) key2 2 true 0).length =
      (caps Kind.Original).image_report_len := by
    rw [length_write_image_header _ _ _ _ _ _ (by rw [hlw, hlb3]; omega), hlb3]
  refine ⟨key2,
    { seq := 1, off := 0, isLast := false, payload := slice image 0 7749,
      buf := overwrite (overwrite (write_image_header false
        (List.replicate (caps Kind.Original).image_report_len 0) key2 1 false 0)
        (caps Kind.Original).image_report_header_len (caps Kind.Original).image_base)
        ((caps Kind.Original).image_report_header_len +
          (caps Kind.Original).image_base.length) (slice image 0 7749) },
    { seq := 2, off := 7749, isLast := true, payload := slice image 7749 15552,
      buf := overwrite (write_image_header false
        (overwrite (overwrite (write_image_header false
          (List.replicate (caps Kind.Original).image_report_len 0) key2 1 false 0)
          (caps Kind.Original).image_report_header_len (caps Kind.Original).image_base)
          ((caps Kind.Original).image_report_header_len +
            (caps Kind.Original).image_base.length)
          (slice image 0 7749)) key2 2 true 0)
        (caps Kind.Original).image_report_header_len (slice image 7749 15552) },
    htr, ?_, rfl, rfl, rfl, hp1len, rfl, rfl, rfl, hp2len, ?_, ?_, ?_, ?_, ?_, ?_, ?_, ?_, ?_⟩
  · unfold write_button_image
    rw [htr]
    dsimp only
    rw [hv2]
  · rw [slice_overwrite_untouched _ _ _ _ _ (Or.inl (le_refl _))
      (by rw [hp1len, hlb2]; omega)]
    exact slice_overwrite_self _ _ _ (by rw [hlb1]; omega)
  · have h := slice_overwrite_self
      (overwrite (write_image_header false
        (List.replicate (caps Kind.Original).image_report_len 0) key2 1 false 0)
        (caps Kind.Original).image_report_header_len (caps Kind.Original).image_base)
      (slice image 0 7749)
      ((caps Kind.Original).image_report_header_len +
        (caps Kind.Original).image_base.length)
      (by rw [hp1len, hlb2]; omega)
    rw [hp1len] at h
    exact h
  · have h := slice_overwrite_self
      (write_image_header false
        (overwrite (overwrite (write_image_header false
          (List.replicate (caps Kind.Original).image_report_len 0) key2 1 false 0)
          (caps Kind.Original).image_report_header_len (caps Kind.Original).image_base)
          ((caps Kind.Original).image_report_header_len +
            (caps Kind.Original).image_base.length)
          (slice image 0 7749)) key2 2 true 0)
      (slice image 7749 15552)
      (caps Kind.Original).image_report_header_len
      (by rw [hp2len, hlb4]; omega)
    rw [hp2len] at h
    exact h
  · rw [getD_overwrite_before _ _ _ _ (by omega) (by rw [hp1len, hlb2]; omega),
      getD_overwrite_before _ _ _ _ (by omega) (by rw [hlb1]; omega),
      getD_write_image_header_legacy _ _ _ _ _ _ (by omega) (by rw [hlb0]; omega)]
    rfl
  · rw [getD_overwrite_before _ _ _ _ (by omega) (by rw [hp1len, hlb2]; omega),
      getD_overwrite_before _ _ _ _ (by omega) (by rw [hlb1]; omega),
      getD_write_image_header_legacy _ _ _ _ _ _ (by omega) (by rw [hlb0]; omega)]
    rfl
  · rw [getD_overwrite_before _ _ _ _ (by omega) (by rw [hp1len, hlb2]; omega),
      getD_overwrite_before _ _ _ _ (by omega) (by rw [hlb1]; omega),
      getD_write_image_header_legacy _ _ _ _ _ _ (by omega) (by rw [hlb0]; omega)]
    rfl
  · rw [getD_overwrite_before _ _ _ _ (by omega) (by rw [hp2len, hlb4]; omega),
      getD_write_image_header_legacy _ _ _ _ _ _ (by omega) (by rw [hlb3]; omega)]
    rfl
  · rw [getD_overwrite_before _ _ _ _ (by omega) (by rw [hp2len, hlb4]; omega),
      getD_write_image_header_legacy _ _ _ _ _ _ (by omega) (by rw [hlb3]; omega)]
    rfl
  · rw [getD_overwrite_before _ _ _ _ (by omega) (by rw [hp2len, hlb4]; omega),
      getD_write_image_header_legacy _ _ _ _ _ _ (by omega) (by rw [hlb3]; omega)]
    rfl

/-- C3 witness: the theorem instantiated on a legacy record with a 16-byte
header region, a 2-byte base and an 8000-byte report, on the all-zero
15552-byte image. -/
theorem claim_C3_witness :
    demoLegacy.is_v2 = false ∧ 15552 ≤ (List.replicate 15552 (0 : Nat)).length ∧
    (∃ key2 c1 c2,
      translate_key_index demoLegacy 0 = Except.ok key2 ∧
      write_button_image (fun _ => demoLegacy) Kind.Original 1 0
          (List.replicate 15552 0) = Except.ok (some [c1, c2]) ∧
      c1.seq = 1 ∧ c1.isLast = false ∧ c2.seq = 2 ∧ c2.isLast = true) := by
  refine ⟨rfl, by rw [List.length_replicate], ?_⟩
  obtain ⟨key2, c1, c2, h1, h2, h3, h4, _, _, h5, h6, _⟩ :=
    claim_C3_original (fun _ => demoLegacy) 1 0 (List.replicate 15552 0)
      rfl (by decide) (by rw [List.length_replicate]) (by decide) (by decide) (by decide)
  exact ⟨key2, c1, c2, h1, h2, h3, h4, h5, h6⟩

end StreamDeck
